import Mathlib

/-!
# Verification of the color-palette extraction core

Shallow embedding of `src/utils/extractColors.js`: pixel sampling/filtering,
recursive median-cut partitioning, vibrancy-weighted ranking and the color-space
conversions.  JavaScript numbers appearing in the algorithm are nonnegative
integers (canvas channel data) and exact small-denominator rationals, modelled
by `ℕ`, `ℤ` and `ℚ`.  `Math.round` on nonnegative arguments rounds half away
from zero, i.e. `⌊q + 1/2⌋`.  `Array.prototype.sort` is stable (ES2019) and its
comparators here are total preorders, so its result is the unique stable order,
modelled by insertion sort.
-/

namespace ColorExtractor

/-- JS `Math.round` for nonnegative arguments: round half toward `+∞`. -/
def jsRound (q : ℚ) : ℤ := ⌊q + 1/2⌋

/-- A filtered pixel `[r, g, b, saturation]` as produced by `getPixels`. -/
structure Pixel where
  r : ℕ
  g : ℕ
  b : ℕ
  saturation : ℚ
deriving DecidableEq, Repr

/-- `pixel[channel]` for the channel indices 0 (red), 1 (green), 2 (blue)
used by `medianCut`. -/
def Pixel.channel (p : Pixel) : ℕ → ℕ
  | 0 => p.r
  | 1 => p.g
  | _ => p.b

/-- A leaf color bucket of `medianCut`: rounded average color, mean
saturation, pixel count. -/
structure Bucket where
  r : ℤ
  g : ℤ
  b : ℤ
  saturation : ℚ
  count : ℕ
deriving DecidableEq, Repr

/-- The `{h, s, l}` record returned by `rgbToHsl`. -/
structure Hsl where
  h : ℤ
  s : ℤ
  l : ℤ
deriving DecidableEq, Repr

/-- One RGBA quadruple of the decoded `imageData.data` buffer. -/
structure Rgba where
  r : ℕ
  g : ℕ
  b : ℕ
  a : ℕ
deriving DecidableEq, Repr

/-- A palette entry as assembled at the end of `extractColors`. -/
structure PaletteEntry where
  r : ℤ
  g : ℤ
  b : ℤ
  hex : String
  hsl : Hsl
  contrast : String
  rgb : String
  hslString : String
deriving DecidableEq, Repr

/-- JS `Number.prototype.toString(16)` on an integer: minimal lowercase
hexadecimal digits, with a leading minus sign for negative inputs. -/
def intToHexString (n : ℤ) : String :=
  if n < 0 then "-" ++ String.mk (Nat.toDigits 16 n.natAbs)
  else String.mk (Nat.toDigits 16 n.toNat)

/-- JS `String.prototype.padStart(2, '0')`. -/
def padStart2 (s : String) : String :=
  if s.length < 2 then String.mk (List.replicate (2 - s.length) '0' ++ s.data) else s

/-- `rgbToHex` (lines 3–5): `'#' + [r, g, b].map(x => x.toString(16).padStart(2, '0')).join('')`. -/
def rgbToHex (r g b : ℤ) : String :=
  "#" ++ String.join (([r, g, b].map fun x => padStart2 (intToHexString x)))

/-- `rgbToHsl` (lines 7–33). Channels are divided by 255, the `switch (max)`
strict-equality dispatch becomes the corresponding if-chain (`case r` tested
first), and each component is rounded by `Math.round`. -/
def rgbToHsl (r0 g0 b0 : ℚ) : Hsl :=
  let r := r0 / 255
  let g := g0 / 255
  let b := b0 / 255
  let mx := max r (max g b)
  let mn := min r (min g b)
  let l := (mx + mn) / 2
  if mx = mn then
    { h := jsRound ((0 : ℚ) * 360), s := jsRound ((0 : ℚ) * 100), l := jsRound (l * 100) }
  else
    let d := mx - mn
    let s := if l > 0.5 then d / (2 - mx - mn) else d / (mx + mn)
    let h :=
      if mx = r then ((g - b) / d + if g < b then 6 else 0) / 6
      else if mx = g then ((b - r) / d + 2) / 6
      else ((r - g) / d + 4) / 6
    { h := jsRound (h * 360), s := jsRound (s * 100), l := jsRound (l * 100) }

/-- `getContrastColor` (lines 35–38). -/
def getContrastColor (r g b : ℚ) : String :=
  let luminance := (0.299 * r + 0.587 * g + 0.114 * b) / 255
  if luminance > 0.5 then "#000000" else "#ffffff"

/-- `getSaturation` (lines 40–45). -/
def getSaturation (r g b : ℕ) : ℚ :=
  let mx := max r (max g b)
  let mn := min r (min g b)
  if mx = 0 then 0 else ((mx : ℚ) - mn) / mx

/-- `getPixels` (lines 47–70): walk the RGBA buffer, drop pixels with
`a < 128`, drop pixels whose brightness `(r+g+b)/3` is `< 5` or `> 250`,
annotate the rest with their saturation. -/
def getPixels : List Rgba → List Pixel
  | [] => []
  | q :: rest =>
    if q.a < 128 then getPixels rest
    else
      if ((q.r + q.g + q.b : ℕ) : ℚ) / 3 < 5 ∨ ((q.r + q.g + q.b : ℕ) : ℚ) / 3 > 250 then
        getPixels rest
      else
        { r := q.r, g := q.g, b := q.b, saturation := getSaturation q.r q.g q.b } ::
          getPixels rest

/-- `getColorRange` (lines 72–82): one pass keeping the running channel
minimum (from 255) and maximum (from 0), returning `max - min`. -/
def getColorRange (pixels : List Pixel) (channel : ℕ) : ℤ :=
  let mm := pixels.foldl
    (fun mm p =>
      let v := p.channel channel
      (if v < mm.1 then v else mm.1, if v > mm.2 then v else mm.2))
    (255, 0)
  (mm.2 : ℤ) - (mm.1 : ℤ)

/-- The channel-selection if-chain of `medianCut` (lines 111–123). -/
def chooseChannel (pixels : List Pixel) : ℕ :=
  let rRange := getColorRange pixels 0
  let gRange := getColorRange pixels 1
  let bRange := getColorRange pixels 2
  if rRange ≥ gRange ∧ rRange ≥ bRange then 0
  else if gRange ≥ rRange ∧ gRange ≥ bRange then 1
  else 2

/-- `pixels.sort((a, b) => a[channel] - b[channel])` (line 126).
ES2019 `Array.prototype.sort` is stable and the comparator is a total
preorder on the channel value, so the result is the unique stable
ascending order, modelled by insertion sort. -/
def sortByChannel (channel : ℕ) (pixels : List Pixel) : List Pixel :=
  pixels.insertionSort fun a b => a.channel channel ≤ b.channel channel

/-- The base-case bucket of `medianCut` (lines 88–108): rounded average
channels, mean saturation, pixel count. -/
def averageBucket (pixels : List Pixel) : Bucket :=
  let n : ℕ := pixels.length
  let rSum : ℕ := (pixels.map fun p => p.r).sum
  let gSum : ℕ := (pixels.map fun p => p.g).sum
  let bSum : ℕ := (pixels.map fun p => p.b).sum
  let satSum : ℚ := (pixels.map fun p => p.saturation).sum
  { r := jsRound ((rSum : ℚ) / n)
    g := jsRound ((gSum : ℚ) / n)
    b := jsRound ((bSum : ℚ) / n)
    saturation := satSum / n
    count := n }

/-- `medianCut` (lines 84–135): at depth 0 or on an empty set emit the
average bucket (or nothing), otherwise sort by the widest channel, split at
`Math.floor(length / 2)` and recurse on both halves with `depth - 1`,
lower-half results first. -/
def medianCut : List Pixel → ℕ → List Bucket
  | pixels, 0 => if pixels = [] then [] else [averageBucket pixels]
  | pixels, depth + 1 =>
    if pixels = [] then []
    else
      let channel := chooseChannel pixels
      let sorted := sortByChannel channel pixels
      let mid := pixels.length / 2
      medianCut (sorted.take mid) depth ++ medianCut (sorted.drop mid) depth

/-- The ranking score of a bucket (lines 182–187):
`score = count * (1 + saturation * 2)`. -/
def bucketScore (c : Bucket) : ℚ := (c.count : ℚ) * (1 + c.saturation * 2)

/-- `colors.sort((a, b) => scoreB - scoreA)` (lines 182–187): stable sort,
descending by score. -/
def sortByScore (colors : List Bucket) : List Bucket :=
  colors.insertionSort fun a b => bucketScore b ≤ bucketScore a

/-- The palette-entry assembly of `extractColors` (lines 193–208). -/
def toPaletteEntry (color : Bucket) : PaletteEntry :=
  let hex := rgbToHex color.r color.g color.b
  let hsl := rgbToHsl (color.r : ℚ) (color.g : ℚ) (color.b : ℚ)
  let contrast := getContrastColor (color.r : ℚ) (color.g : ℚ) (color.b : ℚ)
  { r := color.r
    g := color.g
    b := color.b
    hex := hex
    hsl := hsl
    contrast := contrast
    rgb := "rgb(" ++ toString color.r ++ ", " ++ toString color.g ++ ", " ++
      toString color.b ++ ")"
    hslString := "hsl(" ++ toString hsl.h ++ ", " ++ toString hsl.s ++ "%, " ++
      toString hsl.l ++ "%)" }

/-- The pixel-processing pipeline of `extractColors` (lines 168–210), from the
decoded RGBA buffer onward; image loading, canvas drawing and downscaling are
platform I/O outside the embedding.  `Math.ceil(Math.log2 n)` equals
`Nat.clog 2 n` for `n ≥ 1`.  An empty filtered pixel list rejects with
`'No valid pixels found in image'`. -/
def extractColorsFromData (data : List Rgba) (colorCount : ℕ) :
    Except String (List PaletteEntry) :=
  let pixels := getPixels data
  if pixels = [] then .error "No valid pixels found in image"
  else
    let depth := Nat.clog 2 colorCount + 2
    let colors := medianCut pixels depth
    let sortedColors := sortByScore colors
    .ok ((sortedColors.take colorCount).map toPaletteEntry)

/-- `extractColors(imageUrl, colorCount = 6)` (line 137): the second
parameter is optional and defaults to 6 when absent (`none`). -/
def extractColorsFromDataOpt (data : List Rgba) (colorCount : Option ℕ) :
    Except String (List PaletteEntry) :=
  extractColorsFromData data (colorCount.getD 6)

/-- One lowercase hexadecimal digit, `[0-9a-f]`. -/
def isLowerHexDigit (c : Char) : Bool :=
  decide (('0' ≤ c ∧ c ≤ '9') ∨ ('a' ≤ c ∧ c ≤ 'f'))

/-- Whether a string matches the regular expression `#[0-9a-f]{6}` exactly. -/
def matchesHexPattern (s : String) : Bool :=
  match s.data with
  | '#' :: rest => rest.length == 6 && rest.all isLowerHexDigit
  | _ => false

/-! ## Helper lemmas -/

theorem jsRound_intCast (m : ℤ) : jsRound (m : ℚ) = m := by
  unfold jsRound
  rw [Int.floor_int_add]
  norm_num

theorem jsRound_natCast (m : ℕ) : jsRound (m : ℚ) = m := by
  have := jsRound_intCast (m : ℤ)
  push_cast at this ⊢
  exact this

theorem jsRound_nonneg {q : ℚ} (h : 0 ≤ q) : 0 ≤ jsRound q :=
  Int.floor_nonneg.mpr (by linarith)

theorem jsRound_le {q : ℚ} {B : ℤ} (h : q ≤ (B : ℚ)) : jsRound q ≤ B := by
  unfold jsRound
  have hlt : q + 1/2 < ((B + 1 : ℤ) : ℚ) := by push_cast; linarith
  have := Int.floor_lt.mpr hlt
  omega

/-- A stable sort never moves an element past another with an incomparable key:
filtering `orderedInsert` by any key value commutes with the insertion. -/
theorem filter_orderedInsert {α κ : Type} [DecidableEq κ] (le : α → α → Prop)
    [DecidableRel le] (key : α → κ) (hk : ∀ x y, ¬ le x y → key y ≠ key x)
    (a : α) (l : List α) (v : κ) :
    (l.orderedInsert le a).filter (fun x => decide (key x = v)) =
      if key a = v then a :: l.filter (fun x => decide (key x = v))
      else l.filter (fun x => decide (key x = v)) := by
  induction l with
  | nil =>
    by_cases hv : key a = v <;> simp [List.orderedInsert, hv]
  | cons b l ih =>
    rw [List.orderedInsert]
    by_cases hle : le a b
    · rw [if_pos hle]
      by_cases hv : key a = v <;> simp [List.filter_cons, hv]
    · rw [if_neg hle]
      have hb : key b ≠ key a := hk a b hle
      by_cases hv : key a = v
      · have hbv : ¬ (key b = v) := fun hc => hb (hc.trans hv.symm)
        simp [List.filter_cons, hbv, ih, hv]
      · by_cases hbv : key b = v <;> simp [List.filter_cons, hbv, ih, hv]

/-- Stability of the insertion-sort model of JS `Array.prototype.sort`:
for every key value, the elements with that key come out in their input
order (filtering by the key is unchanged by sorting). -/
theorem filter_insertionSort {α κ : Type} [DecidableEq κ] (le : α → α → Prop)
    [DecidableRel le] (key : α → κ) (hk : ∀ x y, ¬ le x y → key y ≠ key x)
    (l : List α) (v : κ) :
    (l.insertionSort le).filter (fun x => decide (key x = v)) =
      l.filter (fun x => decide (key x = v)) := by
  induction l with
  | nil => rfl
  | cons a l ih =>
    rw [List.insertionSort, filter_orderedInsert le key hk, ih]
    by_cases hv : key a = v <;> simp [List.filter_cons, hv]

theorem sortByChannel_perm (c : ℕ) (pixels : List Pixel) :
    List.Perm (sortByChannel c pixels) pixels :=
  List.perm_insertionSort _ pixels

theorem sortByChannel_length (c : ℕ) (pixels : List Pixel) :
    (sortByChannel c pixels).length = pixels.length :=
  (sortByChannel_perm c pixels).length_eq

theorem sortByChannel_sorted (c : ℕ) (pixels : List Pixel) :
    (sortByChannel c pixels).Sorted (fun a b => a.channel c ≤ b.channel c) := by
  haveI : IsTotal Pixel (fun a b => a.channel c ≤ b.channel c) :=
    ⟨fun a b => Nat.le_total _ _⟩
  haveI : IsTrans Pixel (fun a b => a.channel c ≤ b.channel c) :=
    ⟨fun _ _ _ h1 h2 => Nat.le_trans h1 h2⟩
  exact List.sorted_insertionSort _ pixels

theorem sortByChannel_filter (c : ℕ) (pixels : List Pixel) (v : ℕ) :
    (sortByChannel c pixels).filter (fun p => decide (p.channel c = v)) =
      pixels.filter (fun p => decide (p.channel c = v)) :=
  filter_insertionSort _ (fun p => p.channel c)
    (fun _ _ h => fun hc => h (le_of_eq hc.symm)) pixels v

theorem sortByScore_perm (colors : List Bucket) : List.Perm (sortByScore colors) colors :=
  List.perm_insertionSort _ colors

theorem sortByScore_sorted (colors : List Bucket) :
    (sortByScore colors).Sorted (fun a b => bucketScore b ≤ bucketScore a) := by
  haveI : IsTotal Bucket (fun a b => bucketScore b ≤ bucketScore a) :=
    ⟨fun a b => le_total _ _⟩
  haveI : IsTrans Bucket (fun a b => bucketScore b ≤ bucketScore a) :=
    ⟨fun _ _ _ h1 h2 => le_trans h2 h1⟩
  exact List.sorted_insertionSort _ colors

theorem sortByScore_filter (colors : List Bucket) (v : ℚ) :
    (sortByScore colors).filter (fun c => decide (bucketScore c = v)) =
      colors.filter (fun c => decide (bucketScore c = v)) :=
  filter_insertionSort _ bucketScore
    (fun _ _ h => fun hc => h (le_of_eq hc)) colors v

theorem medianCut_nil (depth : ℕ) : medianCut [] depth = [] := by
  cases depth <;> simp [medianCut]

theorem medianCut_count_sum (depth : ℕ) : ∀ pixels : List Pixel,
    ((medianCut pixels depth).map Bucket.count).sum = pixels.length := by
  induction depth with
  | zero =>
    intro pixels
    by_cases h : pixels = [] <;> simp [medianCut, h, averageBucket]
  | succ d ih =>
    intro pixels
    by_cases h : pixels = []
    · simp [medianCut, h]
    · simp only [medianCut, if_neg h, List.map_append, List.sum_append, ih]
      rw [List.length_take, List.length_drop, sortByChannel_length]
      omega

theorem medianCut_ne_nil {pixels : List Pixel} (h : pixels ≠ []) (depth : ℕ) :
    medianCut pixels depth ≠ [] := by
  intro hnil
  have hsum := medianCut_count_sum depth pixels
  rw [hnil] at hsum
  simp at hsum
  exact h (List.length_eq_zero.mp hsum.symm)

/-! ## Claim theorems -/

/-- C2: in every recursive step of `medianCut`, the split channel is chosen by
the exact evaluation order (red if `rRange ≥ gRange ∧ rRange ≥ bRange`, else
green if `gRange ≥ rRange ∧ gRange ≥ bRange`, else blue); the set is
stable-sorted ascending by that channel, split at index `⌊size/2⌋` (the lower
half gets the smaller count on odd sizes), and both halves are recursed on with
depth − 1, the lower half's buckets concatenated before the upper half's. -/
theorem medianCut_recursive_step (pixels : List Pixel) (d : ℕ) :
    chooseChannel pixels =
      (if getColorRange pixels 0 ≥ getColorRange pixels 1 ∧
          getColorRange pixels 0 ≥ getColorRange pixels 2 then 0
        else if getColorRange pixels 1 ≥ getColorRange pixels 0 ∧
          getColorRange pixels 1 ≥ getColorRange pixels 2 then 1
        else 2) ∧
    medianCut pixels (d + 1) =
      medianCut ((sortByChannel (chooseChannel pixels) pixels).take (pixels.length / 2)) d ++
        medianCut ((sortByChannel (chooseChannel pixels) pixels).drop (pixels.length / 2)) d ∧
    List.Perm (sortByChannel (chooseChannel pixels) pixels) pixels ∧
    (sortByChannel (chooseChannel pixels) pixels).Sorted
      (fun a b => a.channel (chooseChannel pixels) ≤ b.channel (chooseChannel pixels)) ∧
    (∀ v : ℕ,
      (sortByChannel (chooseChannel pixels) pixels).filter
          (fun p => decide (p.channel (chooseChannel pixels) = v)) =
        pixels.filter (fun p => decide (p.channel (chooseChannel pixels) = v))) ∧
    (pixels.length % 2 = 1 → pixels.length / 2 < pixels.length - pixels.length / 2) := by
  refine ⟨rfl, ?_, sortByChannel_perm _ pixels, sortByChannel_sorted _ pixels,
    sortByChannel_filter _ pixels, fun hodd => by omega⟩
  by_cases h : pixels = []
  · subst h
    simp [medianCut_nil, sortByChannel, List.insertionSort]
  · simp [medianCut, h]

/-- C9: the buckets returned by `medianCut` partition the input in weight:
the counts of the returned buckets sum to the length of the input pixel
list — no pixel is dropped or counted twice by the partitioning. -/
theorem medianCut_partition_count (pixels : List Pixel) (depth : ℕ) :
    ((medianCut pixels depth).map Bucket.count).sum = pixels.length :=
  medianCut_count_sum depth pixels

/-- C3: the ranking stage scores every bucket as
`score = count × (1 + saturation × 2)`, sorts descending by score with a
stable sort (a permutation, sorted descending, equal scores keeping their
prior relative order), and truncates to the requested count, so the palette
has length ≤ the requested count. -/
theorem extractColors_ranking_spec (colors : List Bucket) (colorCount : ℕ) :
    (∀ c : Bucket, bucketScore c = (c.count : ℚ) * (1 + c.saturation * 2)) ∧
    List.Perm (sortByScore colors) colors ∧
    (sortByScore colors).Sorted (fun a b => bucketScore b ≤ bucketScore a) ∧
    (∀ v : ℚ, (sortByScore colors).filter (fun c => decide (bucketScore c = v)) =
        colors.filter (fun c => decide (bucketScore c = v))) ∧
    ((sortByScore colors).take colorCount).length ≤ colorCount :=
  ⟨fun _ => rfl, sortByScore_perm colors, sortByScore_sorted colors,
    sortByScore_filter colors, List.length_take_le _ _⟩

theorem jsRound_avg_const {pixels : List Pixel} (f : Pixel → ℕ) (c : ℕ)
    (hne : pixels ≠ []) (h : ∀ p ∈ pixels, f p = c) :
    jsRound (((pixels.map f).sum : ℚ) / pixels.length) = c := by
  have hmap : pixels.map f = List.replicate pixels.length c := by
    rw [List.eq_replicate_iff]
    exact ⟨by simp, fun x hx => by
      obtain ⟨p, hp, rfl⟩ := List.mem_map.mp hx
      exact h p hp⟩
  have hn : (pixels.length : ℚ) ≠ 0 := by
    simpa [List.length_eq_zero] using hne
  rw [hmap, List.sum_replicate, smul_eq_mul]
  push_cast
  rw [mul_div_cancel_left₀ _ hn, jsRound_natCast]

theorem averageBucket_color {pixels : List Pixel} {r0 g0 b0 : ℕ} (hne : pixels ≠ [])
    (hcolor : ∀ p ∈ pixels, p.r = r0 ∧ p.g = g0 ∧ p.b = b0) :
    (averageBucket pixels).r = r0 ∧ (averageBucket pixels).g = g0 ∧
      (averageBucket pixels).b = b0 := by
  refine ⟨?_, ?_, ?_⟩
  · simp only [averageBucket]
    exact jsRound_avg_const (fun p => p.r) r0 hne fun p hp => (hcolor p hp).1
  · simp only [averageBucket]
    exact jsRound_avg_const (fun p => p.g) g0 hne fun p hp => (hcolor p hp).2.1
  · simp only [averageBucket]
    exact jsRound_avg_const (fun p => p.b) b0 hne fun p hp => (hcolor p hp).2.2

theorem medianCut_single_color_aux (depth : ℕ) : ∀ (pixels : List Pixel) (r0 g0 b0 : ℕ),
    (∀ p ∈ pixels, p.r = r0 ∧ p.g = g0 ∧ p.b = b0) →
    ∀ bucket ∈ medianCut pixels depth,
      bucket.r = r0 ∧ bucket.g = g0 ∧ bucket.b = b0 ∧ 0 < bucket.count := by
  induction depth with
  | zero =>
    intro pixels r0 g0 b0 hcolor bucket hb
    by_cases h : pixels = []
    · simp [medianCut, h] at hb
    · simp only [medianCut, if_neg h, List.mem_singleton] at hb
      subst hb
      obtain ⟨h1, h2, h3⟩ := averageBucket_color h hcolor
      exact ⟨h1, h2, h3, by
        simp only [averageBucket]
        exact List.length_pos.mpr h⟩
  | succ d ih =>
    intro pixels r0 g0 b0 hcolor bucket hb
    by_cases h : pixels = []
    · simp [medianCut, h] at hb
    · simp only [medianCut, if_neg h, List.mem_append] at hb
      have hsortmem : ∀ p ∈ sortByChannel (chooseChannel pixels) pixels,
          p.r = r0 ∧ p.g = g0 ∧ p.b = b0 :=
        fun p hp => hcolor p ((sortByChannel_perm _ pixels).mem_iff.mp hp)
      cases hb with
      | inl hb =>
        exact ih _ r0 g0 b0 (fun p hp => hsortmem p (List.take_subset _ _ hp)) bucket hb
      | inr hb =>
        exact ih _ r0 g0 b0 (fun p hp => hsortmem p (List.drop_subset _ _ hp)) bucket hb

/-- C1 counterexample: two pixels of the identical color (10, 20, 30) at
depth 1 > 0 produce TWO buckets, not exactly one — `medianCut` splits a
uniform two-pixel set into two singleton halves, each of which becomes its
own bucket. -/
theorem medianCut_single_color_cex :
    (∀ p ∈ ([⟨10, 20, 30, 2/3⟩, ⟨10, 20, 30, 2/3⟩] : List Pixel),
      p.r = 10 ∧ p.g = 20 ∧ p.b = 30) ∧
    0 < 1 ∧
    (medianCut [⟨10, 20, 30, 2/3⟩, ⟨10, 20, 30, 2/3⟩] 1).length = 2 ∧
    ¬ (medianCut [⟨10, 20, 30, 2/3⟩, ⟨10, 20, 30, 2/3⟩] 1).length = 1 := by
  refine ⟨by decide, by decide, ?_, ?_⟩ <;> decide

/-- C1 (amended): for every non-empty pixel list whose pixels all have
identical r/g/b values and every depth > 0, `medianCut` returns at least one
bucket (possibly several — e.g. two for a two-pixel list at depth 1), and
every returned bucket is non-empty (count > 0) with r/g/b equal to the shared
input color exactly. -/
theorem medianCut_single_color (pixels : List Pixel) (depth : ℕ) (r0 g0 b0 : ℕ)
    (hne : pixels ≠ []) (hd : 0 < depth)
    (hcolor : ∀ p ∈ pixels, p.r = r0 ∧ p.g = g0 ∧ p.b = b0) :
    medianCut pixels depth ≠ [] ∧
    ∀ bucket ∈ medianCut pixels depth,
      bucket.r = r0 ∧ bucket.g = g0 ∧ bucket.b = b0 ∧ 0 < bucket.count :=
  ⟨medianCut_ne_nil hne depth, medianCut_single_color_aux depth pixels r0 g0 b0 hcolor⟩

/-- Witness for C1 at the single pixel (7, 8, 9) and depth 1. -/
theorem medianCut_single_color_witness :
    (([⟨7, 8, 9, 0⟩] : List Pixel) ≠ [] ∧ 0 < 1 ∧
      ∀ p ∈ ([⟨7, 8, 9, 0⟩] : List Pixel), p.r = 7 ∧ p.g = 8 ∧ p.b = 9) ∧
    (medianCut [⟨7, 8, 9, 0⟩] 1 ≠ [] ∧
      ∀ bucket ∈ medianCut [⟨7, 8, 9, 0⟩] 1,
        bucket.r = 7 ∧ bucket.g = 8 ∧ bucket.b = 9 ∧ 0 < bucket.count) :=
  ⟨⟨by decide, by decide, by decide⟩,
    medianCut_single_color [⟨7, 8, 9, 0⟩] 1 7 8 9 (by decide) (by decide) (by decide)⟩

/-- C5: the pixel sampler keeps a pixel exactly when its alpha is ≥ 128 and
its brightness `(r+g+b)/3` lies in the inclusive interval `[5, 250]`
(brightness exactly 5 or exactly 250 is kept), and annotates every kept pixel
with saturation `(max − min) / max`, or 0 when `max = 0`. -/
theorem getPixels_spec (data : List Rgba) :
    getPixels data =
      (data.filter fun q =>
        decide (128 ≤ q.a ∧ 5 ≤ ((q.r + q.g + q.b : ℕ) : ℚ) / 3 ∧
          ((q.r + q.g + q.b : ℕ) : ℚ) / 3 ≤ 250)).map
        (fun q =>
          { r := q.r, g := q.g, b := q.b,
            saturation := getSaturation q.r q.g q.b }) ∧
    ∀ r g b : ℕ, getSaturation r g b =
      if max r (max g b) = 0 then 0
      else (((max r (max g b) : ℕ) : ℚ) - ((min r (min g b) : ℕ) : ℚ)) /
        ((max r (max g b) : ℕ) : ℚ) := by
  refine ⟨?_, fun r g b => rfl⟩
  induction data with
  | nil => rfl
  | cons q rest ih =>
    simp only [getPixels]
    rw [List.filter_cons]
    by_cases ha : q.a < 128
    · rw [if_pos ha]
      have hp : (decide (128 ≤ q.a ∧ 5 ≤ ((q.r + q.g + q.b : ℕ) : ℚ) / 3 ∧
          ((q.r + q.g + q.b : ℕ) : ℚ) / 3 ≤ 250)) = false :=
        decide_eq_false fun hand => absurd hand.1 (by omega)
      rw [hp, if_neg (by simp : ¬ (false = true))]
      exact ih
    · rw [if_neg ha]
      by_cases hbr : ((q.r + q.g + q.b : ℕ) : ℚ) / 3 < 5 ∨ ((q.r + q.g + q.b : ℕ) : ℚ) / 3 > 250
      · rw [if_pos hbr]
        have hp : (decide (128 ≤ q.a ∧ 5 ≤ ((q.r + q.g + q.b : ℕ) : ℚ) / 3 ∧
            ((q.r + q.g + q.b : ℕ) : ℚ) / 3 ≤ 250)) = false := by
          refine decide_eq_false ?_
          rcases hbr with h | h
          · exact fun hand => absurd hand.2.1 (not_le.mpr h)
          · exact fun hand => absurd hand.2.2 (not_le.mpr h)
        rw [hp, if_neg (by simp : ¬ (false = true))]
        exact ih
      · rw [if_neg hbr]
        push_neg at ha hbr
        have hp : (decide (128 ≤ q.a ∧ 5 ≤ ((q.r + q.g + q.b : ℕ) : ℚ) / 3 ∧
            ((q.r + q.g + q.b : ℕ) : ℚ) / 3 ≤ 250)) = true :=
          decide_eq_true ⟨ha, hbr.1, hbr.2⟩
        rw [hp, if_pos rfl, List.map_cons, ih]

/-- C8: for all integer channel values, the contrast color is black
`#000000` exactly when the BT.601 luminance `(0.299r + 0.587g + 0.114b)/255`
is strictly greater than 0.5 and white `#ffffff` otherwise (including
luminance exactly 0.5); the result is always one of these two values. -/
theorem getContrastColor_spec (r g b : ℕ) :
    (getContrastColor r g b = "#000000" ∨ getContrastColor r g b = "#ffffff") ∧
    (getContrastColor r g b = "#000000" ↔
      (0.299 * (r : ℚ) + 0.587 * (g : ℚ) + 0.114 * (b : ℚ)) / 255 > 0.5) ∧
    (getContrastColor r g b = "#ffffff" ↔
      ¬ (0.299 * (r : ℚ) + 0.587 * (g : ℚ) + 0.114 * (b : ℚ)) / 255 > 0.5) := by
  have hne : ("#000000" : String) ≠ "#ffffff" := by decide
  unfold getContrastColor
  by_cases h : (0.299 * (r : ℚ) + 0.587 * (g : ℚ) + 0.114 * (b : ℚ)) / 255 > 0.5
  · rw [if_pos h]
    exact ⟨Or.inl rfl, ⟨fun _ => h, fun _ => rfl⟩, ⟨fun he => absurd he hne, fun hn => absurd h hn⟩⟩
  · rw [if_neg h]
    exact ⟨Or.inr rfl, ⟨fun he => absurd he.symm hne, fun hl => absurd hl h⟩,
      ⟨fun _ => h, fun _ => rfl⟩⟩

theorem jsRound_h_bounds {q : ℚ} (h0 : 0 ≤ q) (h1 : q ≤ 1) :
    0 ≤ jsRound (q * 360) ∧ jsRound (q * 360) ≤ 360 :=
  ⟨jsRound_nonneg (by positivity), jsRound_le (by push_cast; linarith)⟩

theorem jsRound_pct_bounds {q : ℚ} (h0 : 0 ≤ q) (h1 : q ≤ 1) :
    0 ≤ jsRound (q * 100) ∧ jsRound (q * 100) ≤ 100 :=
  ⟨jsRound_nonneg (by positivity), jsRound_le (by push_cast; linarith)⟩

/-- C4 counterexample: at the integer input (255, 0, 2) the computed hue
fraction is 764/765, so `Math.round(h * 360)` is 360 — the returned hue is
NOT in the half-open interval [0, 360). -/
theorem rgbToHsl_hue_360_cex :
    (rgbToHsl 255 0 2).h = 360 ∧ ¬ ((rgbToHsl 255 0 2).h < 360) := by
  have h : (rgbToHsl 255 0 2).h = 360 := by
    norm_num [rgbToHsl, jsRound, max_def, min_def]
  refine ⟨h, ?_⟩
  rw [h]
  omega

/-- C4 (amended): for all integer inputs r, g, b ∈ [0, 255], `rgbToHsl`
returns an integer hue in degrees in the CLOSED interval [0, 360] (rounding
can produce exactly 360, e.g. at (255, 0, 2)), and integer saturation and
lightness in percent in [0, 100]; when max = min (r = g = b), hue and
saturation are both 0. -/
theorem rgbToHsl_ranges (r g b : ℕ) (hr : r ≤ 255) (hg : g ≤ 255) (hb : b ≤ 255) :
    (0 ≤ (rgbToHsl r g b).h ∧ (rgbToHsl r g b).h ≤ 360) ∧
    (0 ≤ (rgbToHsl r g b).s ∧ (rgbToHsl r g b).s ≤ 100) ∧
    (0 ≤ (rgbToHsl r g b).l ∧ (rgbToHsl r g b).l ≤ 100) ∧
    (r = g ∧ g = b → (rgbToHsl r g b).h = 0 ∧ (rgbToHsl r g b).s = 0) := by
  have hA0 : (0:ℚ) ≤ (r:ℚ)/255 := by positivity
  have hG0 : (0:ℚ) ≤ (g:ℚ)/255 := by positivity
  have hB0 : (0:ℚ) ≤ (b:ℚ)/255 := by positivity
  have hA1 : (r:ℚ)/255 ≤ 1 := by
    rw [div_le_one (by norm_num : (0:ℚ) < 255)]
    exact_mod_cast hr
  have hG1 : (g:ℚ)/255 ≤ 1 := by
    rw [div_le_one (by norm_num : (0:ℚ) < 255)]
    exact_mod_cast hg
  have hB1 : (b:ℚ)/255 ≤ 1 := by
    rw [div_le_one (by norm_num : (0:ℚ) < 255)]
    exact_mod_cast hb
  have hMX1 : max ((r:ℚ)/255) (max ((g:ℚ)/255) ((b:ℚ)/255)) ≤ 1 := max_le hA1 (max_le hG1 hB1)
  have hMN0 : (0:ℚ) ≤ min ((r:ℚ)/255) (min ((g:ℚ)/255) ((b:ℚ)/255)) := le_min hA0 (le_min hG0 hB0)
  have hAMX : (r:ℚ)/255 ≤ max ((r:ℚ)/255) (max ((g:ℚ)/255) ((b:ℚ)/255)) := le_max_left _ _
  have hGMX : (g:ℚ)/255 ≤ max ((r:ℚ)/255) (max ((g:ℚ)/255) ((b:ℚ)/255)) :=
    le_trans (le_max_left _ _) (le_max_right _ _)
  have hBMX : (b:ℚ)/255 ≤ max ((r:ℚ)/255) (max ((g:ℚ)/255) ((b:ℚ)/255)) :=
    le_trans (le_max_right _ _) (le_max_right _ _)
  have hMNA : min ((r:ℚ)/255) (min ((g:ℚ)/255) ((b:ℚ)/255)) ≤ (r:ℚ)/255 := min_le_left _ _
  have hMNG : min ((r:ℚ)/255) (min ((g:ℚ)/255) ((b:ℚ)/255)) ≤ (g:ℚ)/255 :=
    le_trans (min_le_right _ _) (min_le_left _ _)
  have hMNB : min ((r:ℚ)/255) (min ((g:ℚ)/255) ((b:ℚ)/255)) ≤ (b:ℚ)/255 :=
    le_trans (min_le_right _ _) (min_le_right _ _)
  have hMNMX : min ((r:ℚ)/255) (min ((g:ℚ)/255) ((b:ℚ)/255)) ≤
      max ((r:ℚ)/255) (max ((g:ℚ)/255) ((b:ℚ)/255)) := hMNA.trans hAMX
  have hMX0 : (0:ℚ) ≤ max ((r:ℚ)/255) (max ((g:ℚ)/255) ((b:ℚ)/255)) := hMN0.trans hMNMX
  have hMN1 : min ((r:ℚ)/255) (min ((g:ℚ)/255) ((b:ℚ)/255)) ≤ 1 := hMNMX.trans hMX1
  simp only [rgbToHsl]
  by_cases hmm : max ((r:ℚ)/255) (max ((g:ℚ)/255) ((b:ℚ)/255)) =
      min ((r:ℚ)/255) (min ((g:ℚ)/255) ((b:ℚ)/255))
  · rw [if_pos hmm]
    refine ⟨⟨?_, ?_⟩, ⟨?_, ?_⟩, ?_, fun _ => ⟨?_, ?_⟩⟩
    · show (0:ℤ) ≤ jsRound ((0:ℚ) * 360)
      norm_num [jsRound]
    · show jsRound ((0:ℚ) * 360) ≤ 360
      norm_num [jsRound]
    · show (0:ℤ) ≤ jsRound ((0:ℚ) * 100)
      norm_num [jsRound]
    · show jsRound ((0:ℚ) * 100) ≤ 100
      norm_num [jsRound]
    · exact jsRound_pct_bounds (by linarith) (by linarith)
    · show jsRound ((0:ℚ) * 360) = 0
      norm_num [jsRound]
    · show jsRound ((0:ℚ) * 100) = 0
      norm_num [jsRound]
  · rw [if_neg hmm]
    have hlt : min ((r:ℚ)/255) (min ((g:ℚ)/255) ((b:ℚ)/255)) <
        max ((r:ℚ)/255) (max ((g:ℚ)/255) ((b:ℚ)/255)) :=
      lt_of_le_of_ne hMNMX fun h => hmm h.symm
    have hd : (0:ℚ) < max ((r:ℚ)/255) (max ((g:ℚ)/255) ((b:ℚ)/255)) -
        min ((r:ℚ)/255) (min ((g:ℚ)/255) ((b:ℚ)/255)) := by linarith
    refine ⟨?_, ?_, ?_, fun hrgb => ?_⟩
    · show (0:ℤ) ≤ jsRound _ ∧ jsRound _ ≤ 360
      split_ifs with hmr hglt hmg
      · refine jsRound_h_bounds ?_ ?_
        · have h1 : -(1:ℚ) ≤ ((g:ℚ)/255 - (b:ℚ)/255) /
              (max ((r:ℚ)/255) (max ((g:ℚ)/255) ((b:ℚ)/255)) -
                min ((r:ℚ)/255) (min ((g:ℚ)/255) ((b:ℚ)/255))) := by
            rw [le_div_iff₀ hd]
            linarith
          linarith
        · have h2 : ((g:ℚ)/255 - (b:ℚ)/255) /
              (max ((r:ℚ)/255) (max ((g:ℚ)/255) ((b:ℚ)/255)) -
                min ((r:ℚ)/255) (min ((g:ℚ)/255) ((b:ℚ)/255))) ≤ 0 := by
            rw [div_le_iff₀ hd]
            linarith
          linarith
      · refine jsRound_h_bounds ?_ ?_
        · have h1 : (0:ℚ) ≤ ((g:ℚ)/255 - (b:ℚ)/255) /
              (max ((r:ℚ)/255) (max ((g:ℚ)/255) ((b:ℚ)/255)) -
                min ((r:ℚ)/255) (min ((g:ℚ)/255) ((b:ℚ)/255))) :=
            div_nonneg (by push_neg at hglt; linarith) hd.le
          linarith
        · have h2 : ((g:ℚ)/255 - (b:ℚ)/255) /
              (max ((r:ℚ)/255) (max ((g:ℚ)/255) ((b:ℚ)/255)) -
                min ((r:ℚ)/255) (min ((g:ℚ)/255) ((b:ℚ)/255))) ≤ 1 := by
            rw [div_le_one hd]
            linarith
          linarith
      · have h1 : -(1:ℚ) ≤ ((b:ℚ)/255 - (r:ℚ)/255) /
            (max ((r:ℚ)/255) (max ((g:ℚ)/255) ((b:ℚ)/255)) -
              min ((r:ℚ)/255) (min ((g:ℚ)/255) ((b:ℚ)/255))) := by
          rw [le_div_iff₀ hd]
          linarith
        have h2 : ((b:ℚ)/255 - (r:ℚ)/255) /
            (max ((r:ℚ)/255) (max ((g:ℚ)/255) ((b:ℚ)/255)) -
              min ((r:ℚ)/255) (min ((g:ℚ)/255) ((b:ℚ)/255))) ≤ 1 := by
          rw [div_le_one hd]
          linarith
        exact jsRound_h_bounds (by linarith) (by linarith)
      · have h1 : -(1:ℚ) ≤ ((r:ℚ)/255 - (g:ℚ)/255) /
            (max ((r:ℚ)/255) (max ((g:ℚ)/255) ((b:ℚ)/255)) -
              min ((r:ℚ)/255) (min ((g:ℚ)/255) ((b:ℚ)/255))) := by
          rw [le_div_iff₀ hd]
          linarith
        have h2 : ((r:ℚ)/255 - (g:ℚ)/255) /
            (max ((r:ℚ)/255) (max ((g:ℚ)/255) ((b:ℚ)/255)) -
              min ((r:ℚ)/255) (min ((g:ℚ)/255) ((b:ℚ)/255))) ≤ 1 := by
          rw [div_le_one hd]
          linarith
        exact jsRound_h_bounds (by linarith) (by linarith)
    · show (0:ℤ) ≤ jsRound _ ∧ jsRound _ ≤ 100
      split_ifs with hl
      · have hsum : 1 < max ((r:ℚ)/255) (max ((g:ℚ)/255) ((b:ℚ)/255)) +
            min ((r:ℚ)/255) (min ((g:ℚ)/255) ((b:ℚ)/255)) := by
          rw [gt_iff_lt, lt_div_iff₀ (by norm_num : (0:ℚ) < 2)] at hl
          norm_num at hl
          linarith
        have hMNlt1 : min ((r:ℚ)/255) (min ((g:ℚ)/255) ((b:ℚ)/255)) < 1 :=
          lt_of_lt_of_le hlt hMX1
        have hden : (0:ℚ) < 2 - max ((r:ℚ)/255) (max ((g:ℚ)/255) ((b:ℚ)/255)) -
            min ((r:ℚ)/255) (min ((g:ℚ)/255) ((b:ℚ)/255)) := by linarith
        refine jsRound_pct_bounds (div_nonneg (by linarith) hden.le) ?_
        rw [div_le_one hden]
        linarith
      · have hMXpos : (0:ℚ) < max ((r:ℚ)/255) (max ((g:ℚ)/255) ((b:ℚ)/255)) :=
          lt_of_le_of_lt hMN0 hlt
        have hden : (0:ℚ) < max ((r:ℚ)/255) (max ((g:ℚ)/255) ((b:ℚ)/255)) +
            min ((r:ℚ)/255) (min ((g:ℚ)/255) ((b:ℚ)/255)) := by linarith
        refine jsRound_pct_bounds (div_nonneg (by linarith) hden.le) ?_
        rw [div_le_one hden]
        linarith
    · exact jsRound_pct_bounds (by linarith) (by linarith)
    · obtain ⟨h1, h2⟩ := hrgb
      subst h1
      subst h2
      exact absurd (by simp) hmm

/-- Witness for C4 at the input (10, 20, 30). -/
theorem rgbToHsl_ranges_witness :
    ((10:ℕ) ≤ 255 ∧ (20:ℕ) ≤ 255 ∧ (30:ℕ) ≤ 255) ∧
    ((0 ≤ (rgbToHsl ((10:ℕ):ℚ) ((20:ℕ):ℚ) ((30:ℕ):ℚ)).h ∧
        (rgbToHsl ((10:ℕ):ℚ) ((20:ℕ):ℚ) ((30:ℕ):ℚ)).h ≤ 360) ∧
      (0 ≤ (rgbToHsl ((10:ℕ):ℚ) ((20:ℕ):ℚ) ((30:ℕ):ℚ)).s ∧
        (rgbToHsl ((10:ℕ):ℚ) ((20:ℕ):ℚ) ((30:ℕ):ℚ)).s ≤ 100) ∧
      (0 ≤ (rgbToHsl ((10:ℕ):ℚ) ((20:ℕ):ℚ) ((30:ℕ):ℚ)).l ∧
        (rgbToHsl ((10:ℕ):ℚ) ((20:ℕ):ℚ) ((30:ℕ):ℚ)).l ≤ 100) ∧
      ((10:ℕ) = 20 ∧ (20:ℕ) = 30 →
        (rgbToHsl ((10:ℕ):ℚ) ((20:ℕ):ℚ) ((30:ℕ):ℚ)).h = 0 ∧
        (rgbToHsl ((10:ℕ):ℚ) ((20:ℕ):ℚ) ((30:ℕ):ℚ)).s = 0)) :=
  ⟨⟨by norm_num, by norm_num, by norm_num⟩,
    rgbToHsl_ranges 10 20 30 (by norm_num) (by norm_num) (by norm_num)⟩

theorem sortByScore_length (colors : List Bucket) :
    (sortByScore colors).length = colors.length :=
  (sortByScore_perm colors).length_eq

/-- C6: the pipeline fails with the `NoValidPixels` error exactly when the
filtered pixel list is empty; every error it can return is that error; and on
a non-empty filtered pixel list it returns a palette of at least one and at
most `colorCount` entries — never a partial or default palette. -/
theorem extractColors_error_iff (data : List Rgba) (colorCount : ℕ)
    (hcc : 1 ≤ colorCount) :
    (extractColorsFromData data colorCount = .error "No valid pixels found in image" ↔
      getPixels data = []) ∧
    (∀ e, extractColorsFromData data colorCount = .error e →
      e = "No valid pixels found in image") ∧
    (getPixels data ≠ [] → ∃ palette,
      extractColorsFromData data colorCount = .ok palette ∧
      1 ≤ palette.length ∧ palette.length ≤ colorCount) := by
  by_cases h : getPixels data = []
  · have hres : extractColorsFromData data colorCount =
        .error "No valid pixels found in image" := by
      simp only [extractColorsFromData, if_pos h]
    refine ⟨⟨fun _ => h, fun _ => hres⟩, fun e he => ?_, fun hne => absurd h hne⟩
    rw [hres] at he
    exact (Except.error.inj he).symm
  · have hres : extractColorsFromData data colorCount =
        .ok (((sortByScore (medianCut (getPixels data)
          (Nat.clog 2 colorCount + 2))).take colorCount).map toPaletteEntry) := by
      simp only [extractColorsFromData, if_neg h]
    refine ⟨⟨fun he => ?_, fun hc => absurd hc h⟩, fun e he => ?_,
      fun _ => ⟨_, hres, ?_, ?_⟩⟩
    · rw [hres] at he
      exact Except.noConfusion he
    · rw [hres] at he
      exact Except.noConfusion he
    · rw [List.length_map, List.length_take, sortByScore_length]
      have hlen : 0 < (medianCut (getPixels data)
          (Nat.clog 2 colorCount + 2)).length :=
        List.length_pos.mpr (medianCut_ne_nil h _)
      omega
    · rw [List.length_map, List.length_take]
      omega

/-- Witness for C6 at a one-pixel buffer and `colorCount = 3`. -/
theorem extractColors_error_iff_witness :
    1 ≤ 3 ∧
    ((extractColorsFromData [⟨100, 100, 100, 255⟩] 3 =
        .error "No valid pixels found in image" ↔
      getPixels [⟨100, 100, 100, 255⟩] = []) ∧
    (∀ e, extractColorsFromData [⟨100, 100, 100, 255⟩] 3 = .error e →
      e = "No valid pixels found in image") ∧
    (getPixels [⟨100, 100, 100, 255⟩] ≠ [] → ∃ palette,
      extractColorsFromData [⟨100, 100, 100, 255⟩] 3 = .ok palette ∧
      1 ≤ palette.length ∧ palette.length ≤ 3)) :=
  ⟨by omega, extractColors_error_iff [⟨100, 100, 100, 255⟩] 3 (by omega)⟩

theorem isLowerHexDigit_zero : isLowerHexDigit '0' = true := rfl

theorem digitChar_hex {n : ℕ} (h : n < 16) : isLowerHexDigit (Nat.digitChar n) = true := by
  interval_cases n <;> rfl

theorem toDigitsCore_eq {fuel n : ℕ} (hn : n < 16) (ds : List Char) (hf : 0 < fuel) :
    Nat.toDigitsCore 16 fuel n ds = Nat.digitChar n :: ds := by
  obtain ⟨f, rfl⟩ := Nat.exists_eq_succ_of_ne_zero hf.ne'
  simp only [Nat.toDigitsCore]
  rw [Nat.mod_eq_of_lt hn, if_pos (Nat.div_eq_of_lt hn)]

theorem toDigitsCore_eq2 {fuel n : ℕ} (h16 : 16 ≤ n) (hn : n < 256) (ds : List Char)
    (hf : 2 ≤ fuel) :
    Nat.toDigitsCore 16 fuel n ds = Nat.digitChar (n / 16) :: Nat.digitChar (n % 16) :: ds := by
  obtain ⟨f, rfl⟩ : ∃ f, fuel = f + 1 := ⟨fuel - 1, by omega⟩
  simp only [Nat.toDigitsCore]
  rw [if_neg (by omega : ¬ (n / 16 = 0))]
  exact toDigitsCore_eq (by omega) _ (by omega)

theorem toDigits16_lt16 {n : ℕ} (h : n < 16) : Nat.toDigits 16 n = [Nat.digitChar n] :=
  toDigitsCore_eq h [] (by omega)

theorem toDigits16_big {n : ℕ} (h16 : 16 ≤ n) (h : n < 256) :
    Nat.toDigits 16 n = [Nat.digitChar (n / 16), Nat.digitChar (n % 16)] :=
  toDigitsCore_eq2 h16 h [] (by omega)

/-- `x.toString(16).padStart(2, '0')` on an integer in [0, 255] is exactly
two lowercase hexadecimal digits. -/
theorem intToHexString_data {n : ℤ} (h0 : 0 ≤ n) (h255 : n ≤ 255) :
    ∃ c1 c2 : Char, (padStart2 (intToHexString n)).data = [c1, c2] ∧
      isLowerHexDigit c1 = true ∧ isLowerHexDigit c2 = true := by
  obtain ⟨m, rfl⟩ := Int.eq_ofNat_of_zero_le h0
  have hm : m ≤ 255 := by exact_mod_cast h255
  unfold intToHexString
  rw [if_neg (by omega : ¬ ((m:ℤ) < 0)), Int.toNat_natCast]
  by_cases h16 : m < 16
  · rw [toDigits16_lt16 h16]
    refine ⟨'0', Nat.digitChar m, ?_, isLowerHexDigit_zero, digitChar_hex h16⟩
    simp [padStart2, String.length]
  · rw [toDigits16_big (by omega) (by omega)]
    refine ⟨Nat.digitChar (m / 16), Nat.digitChar (m % 16), ?_,
      digitChar_hex (by omega), digitChar_hex (by omega)⟩
    simp [padStart2, String.length]

theorem rgbToHex_matches {r g b : ℤ} (hr0 : 0 ≤ r) (hr : r ≤ 255) (hg0 : 0 ≤ g)
    (hg : g ≤ 255) (hb0 : 0 ≤ b) (hb : b ≤ 255) :
    matchesHexPattern (rgbToHex r g b) = true := by
  obtain ⟨c1, c2, hd1, h1, h2⟩ := intToHexString_data hr0 hr
  obtain ⟨c3, c4, hd2, h3, h4⟩ := intToHexString_data hg0 hg
  obtain ⟨c5, c6, hd3, h5, h6⟩ := intToHexString_data hb0 hb
  have hjoin : (rgbToHex r g b).data = '#' :: [c1, c2, c3, c4, c5, c6] := by
    simp [rgbToHex, String.join, hd1, hd2, hd3]
  unfold matchesHexPattern
  rw [hjoin]
  simp [h1, h2, h3, h4, h5, h6]

theorem jsRound_avg_bounds {pixels : List Pixel} (f : Pixel → ℕ) (hne : pixels ≠ [])
    (h : ∀ p ∈ pixels, f p ≤ 255) :
    0 ≤ jsRound (((pixels.map f).sum : ℚ) / pixels.length) ∧
      jsRound (((pixels.map f).sum : ℚ) / pixels.length) ≤ 255 := by
  have hn : 0 < pixels.length := List.length_pos.mpr hne
  have hq0 : (0:ℚ) ≤ ((pixels.map f).sum : ℚ) / pixels.length := by positivity
  have hsum : (pixels.map f).sum ≤ pixels.length * 255 := by
    have := List.sum_le_card_nsmul (pixels.map f) 255 (by
      intro x hx
      obtain ⟨p, hp, rfl⟩ := List.mem_map.mp hx
      exact h p hp)
    simpa [smul_eq_mul] using this
  have hq1 : ((pixels.map f).sum : ℚ) / pixels.length ≤ 255 := by
    rw [div_le_iff₀ (by exact_mod_cast hn)]
    calc ((pixels.map f).sum : ℚ) ≤ ((pixels.length * 255 : ℕ) : ℚ) := by exact_mod_cast hsum
      _ = 255 * (pixels.length : ℚ) := by push_cast; ring
  exact ⟨jsRound_nonneg hq0, jsRound_le (by exact_mod_cast hq1)⟩

theorem averageBucket_bounds {pixels : List Pixel} (hne : pixels ≠ [])
    (hp : ∀ p ∈ pixels, p.r ≤ 255 ∧ p.g ≤ 255 ∧ p.b ≤ 255) :
    (0 ≤ (averageBucket pixels).r ∧ (averageBucket pixels).r ≤ 255) ∧
    (0 ≤ (averageBucket pixels).g ∧ (averageBucket pixels).g ≤ 255) ∧
    (0 ≤ (averageBucket pixels).b ∧ (averageBucket pixels).b ≤ 255) := by
  refine ⟨?_, ?_, ?_⟩
  · simp only [averageBucket]
    exact jsRound_avg_bounds (fun p => p.r) hne fun p hp' => (hp p hp').1
  · simp only [averageBucket]
    exact jsRound_avg_bounds (fun p => p.g) hne fun p hp' => (hp p hp').2.1
  · simp only [averageBucket]
    exact jsRound_avg_bounds (fun p => p.b) hne fun p hp' => (hp p hp').2.2

theorem medianCut_bounds_aux (depth : ℕ) : ∀ pixels : List Pixel,
    (∀ p ∈ pixels, p.r ≤ 255 ∧ p.g ≤ 255 ∧ p.b ≤ 255) →
    ∀ bucket ∈ medianCut pixels depth,
      (0 ≤ bucket.r ∧ bucket.r ≤ 255) ∧ (0 ≤ bucket.g ∧ bucket.g ≤ 255) ∧
      (0 ≤ bucket.b ∧ bucket.b ≤ 255) := by
  induction depth with
  | zero =>
    intro pixels hp bucket hb
    by_cases h : pixels = []
    · simp [medianCut, h] at hb
    · simp only [medianCut, if_neg h, List.mem_singleton] at hb
      subst hb
      exact averageBucket_bounds h hp
  | succ d ih =>
    intro pixels hp bucket hb
    by_cases h : pixels = []
    · simp [medianCut, h] at hb
    · simp only [medianCut, if_neg h, List.mem_append] at hb
      have hsortmem : ∀ p ∈ sortByChannel (chooseChannel pixels) pixels,
          p.r ≤ 255 ∧ p.g ≤ 255 ∧ p.b ≤ 255 :=
        fun p hp' => hp p ((sortByChannel_perm _ pixels).mem_iff.mp hp')
      cases hb with
      | inl hb =>
        exact ih _ (fun p hp' => hsortmem p (List.take_subset _ _ hp')) bucket hb
      | inr hb =>
        exact ih _ (fun p hp' => hsortmem p (List.drop_subset _ _ hp')) bucket hb

/-- C7: every bucket `medianCut` produces from pixels with channels in
[0, 255] has r/g/b integers in [0, 255], and `rgbToHex` renders them as `#`
followed by six lowercase, zero-padded hexadecimal digits — the hex string
matches `#[0-9a-f]{6}`. -/
theorem palette_rgb_hex_valid (pixels : List Pixel) (depth : ℕ)
    (hpx : ∀ p ∈ pixels, p.r ≤ 255 ∧ p.g ≤ 255 ∧ p.b ≤ 255) :
    ∀ bucket ∈ medianCut pixels depth,
      (0 ≤ bucket.r ∧ bucket.r ≤ 255) ∧ (0 ≤ bucket.g ∧ bucket.g ≤ 255) ∧
      (0 ≤ bucket.b ∧ bucket.b ≤ 255) ∧
      matchesHexPattern (rgbToHex bucket.r bucket.g bucket.b) = true := by
  intro bucket hb
  obtain ⟨⟨h1, h2⟩, ⟨h3, h4⟩, h5, h6⟩ := medianCut_bounds_aux depth pixels hpx bucket hb
  exact ⟨⟨h1, h2⟩, ⟨h3, h4⟩, ⟨h5, h6⟩, rgbToHex_matches h1 h2 h3 h4 h5 h6⟩

/-- Witness for C7 at a single valid pixel and depth 0. -/
theorem palette_rgb_hex_valid_witness :
    (∀ p ∈ ([⟨10, 20, 30, 0⟩] : List Pixel), p.r ≤ 255 ∧ p.g ≤ 255 ∧ p.b ≤ 255) ∧
    ∀ bucket ∈ medianCut [⟨10, 20, 30, 0⟩] 0,
      (0 ≤ bucket.r ∧ bucket.r ≤ 255) ∧ (0 ≤ bucket.g ∧ bucket.g ≤ 255) ∧
      (0 ≤ bucket.b ∧ bucket.b ≤ 255) ∧
      matchesHexPattern (rgbToHex bucket.r bucket.g bucket.b) = true :=
  ⟨by decide, palette_rgb_hex_valid [⟨10, 20, 30, 0⟩] 0 (by decide)⟩

/-- C10: calling `extractColors` without a color count behaves exactly as if
`colorCount = 6` had been supplied (JS default parameter), and supplying a
count uses that count. -/
theorem extractColors_default_count (data : List Rgba) :
    extractColorsFromDataOpt data none = extractColorsFromData data 6 ∧
    ∀ n : ℕ, extractColorsFromDataOpt data (some n) = extractColorsFromData data n :=
  ⟨rfl, fun _ => rfl⟩

end ColorExtractor
